import Mathlib

/-!
Verification development for the chunked OCR processing pipeline
(app/services/pdf_splitter.py, app/services/ocr.py,
app/services/cache_manager.py, app/services/vision_service.py,
app/services/document_saver.py).

The Python code is shallowly embedded: pure computations become Lean
functions, the stateful chunk-processing loop becomes explicit
environment passing (the environment records the outcome of each
external call and each memory sample), and exceptions become Except.
-/

namespace OCRApp

/-! ## Python iteration ranges

`pdf_splitter.PDFSplitter.split_pdf` and
`ocr.OCRService._memory_efficient_chunk_generator` both iterate
`range(0, total_pages, max_pages)`.  `pyRangeGo` computes the Python function
`range(start, stop, step)` for a positive step; the first argument is a
fuel bound on the number of loop iterations (`stop - cur` always
suffices because each iteration advances `cur` by `step ≥ 1`).  All
call sites in the repository use the positive configuration value
`max_chunk_pages` / `max_pages_per_chunk` (default 10) as the step. -/

def pyRangeGo (stop step : Nat) : Nat → Nat → List Nat
  | 0, _ => []
  | fuel + 1, cur =>
    if cur < stop then cur :: pyRangeGo stop step fuel (cur + step) else []

/-- Python `range(start, stop, step)` for `step ≥ 1`. -/
def pyRange (start stop step : Nat) : List Nat :=
  pyRangeGo stop step (stop - start) start

/-- Embeds `pdf_splitter.py`, `PDFSplitter.split_pdf` (also mirrored by
`ocr.OCRService._memory_efficient_chunk_generator`): for
`start_page in range(0, total_pages, max_pages_per_chunk)` the chunk
covers pages `[start_page, min(start_page + max_pages_per_chunk,
total_pages))`.  A chunk is represented by that half-open page range. -/
def split_pdf (maxPagesPerChunk totalPages : Nat) : List (Nat × Nat) :=
  (pyRange 0 totalPages maxPagesPerChunk).map
    (fun startPage => (startPage, min (startPage + maxPagesPerChunk) totalPages))

/-! ## Data model of per-chunk OCR results

`ocr.OCRService._process_docai_response` builds, for each chunk, a dict
`{text, pages: [{page_number, dimensions: {width, height}, layout:
{confidence}}]}`.  Text is modelled as its character list.  The Document
AI width/height/confidence values are floating-point numbers that every
modelled operation passes through unchanged, so their numeric type is
irrelevant to the claims; they are modelled as integers. -/

structure PageRecord where
  page_number : Nat
  width : Int
  height : Int
  confidence : Int
deriving DecidableEq, Repr

/-- Structured OCR output of one chunk.  Results built by
`_process_docai_response` carry no `metadata.processors` key, which
`_safe_merge_results` reads with default `[]`; the field records that
list (empty for every Document AI result). -/
structure ChunkResult where
  text : List Char
  pages : List PageRecord
  processors : List String
deriving DecidableEq, Repr

/-- A Document AI page as found on the raw response. -/
structure DocAIPage where
  page_number : Nat
  width : Int
  height : Int
  confidence : Int
deriving DecidableEq, Repr

/-- A Document AI response document (`result.document`). -/
structure DocAIDocument where
  text : List Char
  pages : List DocAIPage
deriving DecidableEq, Repr

/-- Embeds `ocr.OCRService._process_docai_response`: keeps `document.text` and
maps each page to `{page_number, dimensions, layout.confidence}`.  The
`round(confidence, 4)` call is the identity on the integer model of the
float pass-through. -/
def process_docai_response (document : DocAIDocument) : ChunkResult :=
  { text := document.text
    pages := document.pages.map (fun page =>
      { page_number := page.page_number
        width := page.width
        height := page.height
        confidence := page.confidence })
    processors := [] }

/-- The merged result built by `ocr.OCRService._safe_merge_results`:
`{text, pages, metadata: {total_chunks, processors}}` with the metadata
dict flattened into fields. -/
structure Merged where
  text : List Char
  pages : List PageRecord
  total_chunks : Nat
  processors : Finset String
deriving DecidableEq

/-- Python string slicing `s[:k]` for an `int` bound `k`: the first `k`
characters when `k ≥ 0`, and all but the last `-k` characters when
`k < 0` (clamped at the empty string). -/
def pySliceTo (s : List Char) (k : Int) : List Char :=
  if 0 ≤ k then s.take k.toNat else s.take ((s.length : Int) + k).toNat

/-- One iteration of the `ocr.OCRService._safe_merge_results` loop
body: take `result[text][:max_text_size - len(merged[text])]` and
append it to the merged text, extend the merged pages with the
pages of the result, and union the processors. -/
def mergeAcc2 (maxTextSize : Int) (acc : Merged) (r : ChunkResult) : Merged :=
  { text := acc.text ++ pySliceTo r.text (maxTextSize - (acc.text.length : Int))
    pages := acc.pages ++ r.pages
    total_chunks := acc.total_chunks
    processors := acc.processors ∪ r.processors.toFinset }

/-- Loop of `ocr.OCRService._safe_merge_results`: fold the body over
the results, breaking as soon as
`len(merged[text]) >= max_text_size`. -/
def mergeLoop (maxTextSize : Int) (acc : Merged) : List ChunkResult → Merged
  | [] => acc
  | r :: rs =>
    let acc2 := mergeAcc2 maxTextSize acc r
    if maxTextSize ≤ (acc2.text.length : Int) then acc2 else mergeLoop maxTextSize acc2 rs

/-- Embeds `ocr.OCRService._safe_merge_results`: starts from the empty merged
record whose `metadata.total_chunks` is `len(results)` and folds the
loop body over the results.  `max_text_size` is the service
configuration value (Python `int`, default `250_000`). -/
def safe_merge_results (maxTextSize : Int) (results : List ChunkResult) : Merged :=
  mergeLoop maxTextSize
    { text := [], pages := [], total_chunks := results.length, processors := ∅ } results

/-- Number of results the merge loop consumes before stopping: it
mirrors the accumulated-text length of `mergeLoop` and counts one entry
per iteration, stopping after the iteration whose accumulated text
reaches `maxTextSize`. -/
def mergeKept (maxTextSize : Int) (lenAcc : Int) : List ChunkResult → Nat
  | [] => 0
  | r :: rs =>
    let len2 := lenAcc + ((pySliceTo r.text (maxTextSize - lenAcc)).length : Int)
    if maxTextSize ≤ len2 then 1 else 1 + mergeKept maxTextSize len2 rs

/-! ## Chunk processing with timeout and retry

`ocr.OCRService._process_chunk_with_timeout` runs up to
`max_retries = 3` attempts.  The outcome of each attempt (the Document AI
call succeeding, timing out, or raising) is an external event recorded
by an environment function from attempt index to outcome. -/

/-- Outcome of one `_process_with_documentai` attempt as observed by
`_process_chunk_with_timeout`: a result, an `asyncio.TimeoutError`, or
any other exception. -/
inductive AttemptOutcome
  | success (r : ChunkResult)
  | timeout
  | failure
deriving DecidableEq

/-- The constant `max_retries = 3` in `_process_chunk_with_timeout`. -/
def max_retries : Nat := 3

/-- Observable behaviour of one `_process_chunk_with_timeout` call: the
returned value (`None` on exhaustion), the number of attempts made, and
the list of `asyncio.sleep` delays executed between attempts, in
order. -/
structure ChunkCallTrace where
  result : Option ChunkResult
  attemptsMade : Nat
  delays : List Nat
deriving DecidableEq

/-- The `for attempt in range(max_retries)` loop of
`_process_chunk_with_timeout`: on success return the result; on
`TimeoutError` return `None` if this was the last attempt, otherwise
retry immediately; on any other exception return `None` if this was the
last attempt, otherwise `await asyncio.sleep(2 ** attempt)` and retry.
The fuel is the number of loop iterations left (`max_retries` at
entry); a fall-through of the `for` loop returns `None`. -/
def processChunkGo (env : Nat → AttemptOutcome) : Nat → Nat → ChunkCallTrace
  | 0, _ => { result := none, attemptsMade := 0, delays := [] }
  | fuel + 1, attempt =>
    match env attempt with
    | .success r => { result := some r, attemptsMade := 1, delays := [] }
    | .timeout =>
      if attempt = max_retries - 1 then { result := none, attemptsMade := 1, delays := [] }
      else
        let rest := processChunkGo env fuel (attempt + 1)
        { result := rest.result, attemptsMade := rest.attemptsMade + 1, delays := rest.delays }
    | .failure =>
      if attempt = max_retries - 1 then { result := none, attemptsMade := 1, delays := [] }
      else
        let rest := processChunkGo env fuel (attempt + 1)
        { result := rest.result, attemptsMade := rest.attemptsMade + 1
          delays := 2 ^ attempt :: rest.delays }

/-- Embeds `ocr.OCRService._process_chunk_with_timeout` over the outcomes of
its successive Document AI attempts. -/
def process_chunk_with_timeout (env : Nat → AttemptOutcome) : ChunkCallTrace :=
  processChunkGo env max_retries 0

/-! ## The `process_document` pipeline

`ocr.OCRService.process_document` pulls chunks from
`_memory_efficient_chunk_generator` and, per iteration, the following
`MemoryMonitor.is_memory_safe()` samples are consumed in order:
one inside the generator before building the chunk (an unsafe sample
only triggers `asyncio.sleep`, the chunk is still built), one at the
top of the loop body (an unsafe sample executes `break`, abandoning
this chunk and all remaining ones), and one at the bottom of the loop
body (an unsafe sample only triggers `asyncio.sleep`).  The environment
records the boolean returned by each successive sample. -/

structure ProcEnv where
  memSafe : Nat → Bool
  attempts : Nat → Nat → AttemptOutcome
  vision : Except Unit Unit

/-- The `async for chunk in self._memory_efficient_chunk_generator`
loop of `process_document` over the chunk list produced by the
generator.  Arguments: remaining chunks, `chunks_processed` so far, and
the index of the next memory sample.  Returns the collected
`processed_results` (successful chunk results in chunk order), the
final `chunks_processed` count, and the next sample index.  Iteration
with first sample `s` consumes samples `s` (generator, delay only),
`s + 1` (loop top, `break` when unsafe) and `s + 2` (loop bottom, delay
only); `_process_chunk_with_timeout` returns `None` instead of raising,
so the surrounding `try` never catches anything. -/
def chunkLoop (env : ProcEnv) : List (Nat × Nat) → Nat → Nat → List ChunkResult × Nat × Nat
  | [], processed, s => ([], processed, s)
  | _chunk :: rest, processed, s =>
    if env.memSafe (s + 1) = false then
      ([], processed, s + 2)
    else
      let call := process_chunk_with_timeout (env.attempts processed)
      let out := chunkLoop env rest (processed + 1) (s + 3)
      (match call.result with
       | some r => r :: out.1
       | none => out.1,
       out.2.1, out.2.2)

/-- Which exception aborts `process_document` (its outer handler logs
and re-raises). -/
inductive ProcessAbort
  | visionAborted
  | saveAttributeAborted
deriving DecidableEq

/-- Embeds `ocr.OCRService.process_document` after the chunk loop: it calls
`self.vision_service.analyze_document(content, filename)` with no
surrounding handler, and `VisionService.analyze_document` re-raises any
error, so a failed secondary analysis propagates out of
`process_document`.  On vision success it merges the processed results,
copies `visual_elements` and `classifications` out of the vision result
(both keys are absent from what `analyze_document` returns, so both
default to `{}`), and then evaluates
`self.document_saver.save_results(final_result, filename)` —
`DocumentSaver` (document_saver.py) defines no `save_results` method
(only `append_result` and `save_final_results`), so the attribute
lookup raises `AttributeError`, which the outer handler re-raises. -/
def process_document (env : ProcEnv) (maxTextSize : Int) (chunks : List (Nat × Nat)) :
    Except ProcessAbort Merged :=
  let loopOut := chunkLoop env chunks 0 0
  match env.vision with
  | .error _ => .error .visionAborted
  | .ok _ =>
    let _finalResult := safe_merge_results maxTextSize loopOut.1
    .error .saveAttributeAborted

/-! ## Cache (cache_manager.py)

`CacheManager` keys a JSON file per cache key under a directory; the
store is modelled as a map from key to the written
`{timestamp, data}` pair.  Timestamps are abstract clock readings
(`datetime.now()` at write/read time) in the same unit as the TTL, with
expiry exactly when `cached_time + ttl < now`. -/

abbrev CacheState (K V : Type) := K → Option (Nat × V)

/-- Embeds `CacheManager.set`: writes a `timestamp: now, data` pair under the key
(an existing entry is overwritten). -/
def cache_set {K V : Type} [DecidableEq K] (s : CacheState K V) (now : Nat) (k : K) (v : V) :
    CacheState K V :=
  fun q => if q = k then some (now, v) else s q

/-- Embeds `CacheManager.invalidate`: removes the entry of the key. -/
def cache_invalidate {K V : Type} [DecidableEq K] (s : CacheState K V) (k : K) :
    CacheState K V :=
  fun q => if q = k then none else s q

/-- Embeds `CacheManager.get`: absent file returns `None`; an entry with
`cached_time + ttl < now` is expired, is invalidated, and returns
`None`; otherwise the stored data is returned and the store is
untouched.  Returns the read value together with the store after the
read. -/
def cache_get {K V : Type} [DecidableEq K] (ttl : Nat) (s : CacheState K V) (now : Nat)
    (k : K) : Option V × CacheState K V :=
  match s k with
  | none => (none, s)
  | some (cachedTime, data) =>
    if cachedTime + ttl < now then (none, cache_invalidate s k) else (some data, s)

/-! ## Splitter lemmas -/

lemma pyRangeGo_eq (stop step : Nat) (hstep : 0 < step) :
    ∀ fuel cur, stop - cur ≤ fuel →
      pyRangeGo stop step fuel cur
        = (List.range ((stop - cur + step - 1) / step)).map (fun i => cur + i * step) := by
  intro fuel
  induction fuel with
  | zero =>
    intro cur h
    have h0 : stop - cur = 0 := by omega
    rw [pyRangeGo, h0, Nat.div_eq_of_lt (by omega)]
    rfl
  | succ fuel ih =>
    intro cur h
    rw [pyRangeGo]
    by_cases hlt : cur < stop
    · rw [if_pos hlt, ih (cur + step) (by omega)]
      have hcount : (stop - cur + step - 1) / step
          = (stop - (cur + step) + step - 1) / step + 1 := by
        by_cases hds : stop - cur ≤ step
        · have h1 : stop - (cur + step) = 0 := by omega
          have h2 : stop - cur + step - 1 = (stop - cur - 1) + step := by omega
          rw [h1, h2, Nat.add_div_right _ hstep,
            Nat.div_eq_of_lt (by omega), Nat.div_eq_of_lt (by omega)]
        · have h2 : stop - cur + step - 1 = (stop - (cur + step) + step - 1) + step := by
            omega
          rw [h2, Nat.add_div_right _ hstep]
      rw [hcount, List.range_succ_eq_map, List.map_cons, List.map_map]
      have hfun : ((fun i => cur + i * step) ∘ Nat.succ) = fun i => cur + step + i * step := by
        funext i
        simp only [Function.comp_apply, Nat.succ_mul]
        omega
      rw [hfun]
      simp
    · rw [if_neg hlt]
      have h0 : stop - cur = 0 := by omega
      rw [h0, Nat.div_eq_of_lt (by omega)]
      rfl

lemma pyRange_eq (start stop step : Nat) (hstep : 0 < step) :
    pyRange start stop step
      = (List.range ((stop - start + step - 1) / step)).map (fun i => start + i * step) :=
  pyRangeGo_eq stop step hstep (stop - start) start le_rfl

/-- Closed form of the splitter: chunk `i` covers pages
`[i*C, min (i*C + C) N)`. -/
lemma split_pdf_eq (C N : Nat) (hC : 0 < C) :
    split_pdf C N
      = (List.range ((N + C - 1) / C)).map (fun i => (i * C, min (i * C + C) N)) := by
  unfold split_pdf
  rw [pyRange_eq 0 N C hC, List.map_map]
  simp [Function.comp_def]

/-- Ceiling division in terms of quotient and remainder. -/
lemma ceil_div_eq (N C : Nat) (hC : 0 < C) :
    (N + C - 1) / C = N / C + (if N % C = 0 then 0 else 1) := by
  rcases Nat.eq_zero_or_pos N with h0 | hN
  · subst h0
    have h1 : 0 + C - 1 = C - 1 := by omega
    rw [h1, Nat.div_eq_of_lt (by omega), Nat.zero_div, Nat.zero_mod, if_pos rfl]
  · have hdm := Nat.div_add_mod N C
    have hmod := Nat.mod_lt N hC
    have hstep : N + C - 1 = N - 1 + C := by omega
    rw [hstep, Nat.add_div_right _ hC]
    by_cases hr : N % C = 0
    · rw [if_pos hr]
      have hCN : C ≤ N := by
        by_contra hlt
        push_neg at hlt
        rw [Nat.mod_eq_of_lt hlt] at hr
        omega
      have hq : 0 < N / C := Nat.div_pos hCN hC
      obtain ⟨q, hqe⟩ : ∃ q, N / C = q + 1 := ⟨N / C - 1, by omega⟩
      rw [hqe] at hdm
      have e : C * (q + 1) = C * q + C := Nat.mul_succ C q
      have h1 : N - 1 = C * q + (C - 1) := by omega
      have h2 : (C - 1) / C = 0 := Nat.div_eq_of_lt (by omega)
      rw [h1, Nat.mul_add_div hC, h2, hqe]
    · rw [if_neg hr]
      have h1 : N - 1 = C * (N / C) + (N % C - 1) := by omega
      have h2 : (N % C - 1) / C = 0 := Nat.div_eq_of_lt (by omega)
      rw [h1, Nat.mul_add_div hC, h2]

lemma ceil_div_pos (N C : Nat) (hN : 1 ≤ N) (hC : 0 < C) : 1 ≤ (N + C - 1) / C :=
  (Nat.le_div_iff_mul_le hC).mpr (by omega)

/-- Arithmetic facts about the chunk grid of `split_pdf`: every
non-final chunk end stays within the document, the final chunk end is
clamped at `N`, and the final chunk holds `N mod C` pages (or `C` when
`C` divides `N`). -/
lemma split_pdf_bounds (N C : Nat) (hN : 1 ≤ N) (hC : 0 < C) :
    (∀ i, i + 1 < (N + C - 1) / C → i * C + C ≤ N) ∧
    N ≤ ((N + C - 1) / C - 1) * C + C ∧
    N - ((N + C - 1) / C - 1) * C = (if N % C = 0 then C else N % C) := by
  have hdm := Nat.div_add_mod N C
  have hmod := Nat.mod_lt N hC
  rw [ceil_div_eq N C hC]
  revert hdm hmod
  generalize N / C = q
  generalize N % C = r
  intro hdm hmod
  have hqc : q * C = C * q := Nat.mul_comm _ _
  by_cases hr0 : r = 0
  · rw [if_pos hr0, if_pos hr0, Nat.add_zero]
    have hq1 : 0 < q := by
      rcases Nat.eq_zero_or_pos q with h | h
      · subst h
        simp at hdm
        omega
      · exact h
    have hsucc : (q - 1) * C + C = q * C := by
      obtain ⟨p, hp⟩ : ∃ p, q = p + 1 := ⟨q - 1, by omega⟩
      rw [hp]
      have h1 : p + 1 - 1 = p := by omega
      rw [h1, Nat.succ_mul]
    refine ⟨?_, ?_, ?_⟩
    · intro i hi
      have hmono : (i + 1) * C ≤ q * C := Nat.mul_le_mul_right C (by omega)
      have hs : (i + 1) * C = i * C + C := Nat.succ_mul i C
      omega
    · omega
    · omega
  · rw [if_neg hr0, if_neg hr0, Nat.add_sub_cancel]
    refine ⟨?_, ?_, ?_⟩
    · intro i hi
      have hmono : (i + 1) * C ≤ q * C := Nat.mul_le_mul_right C (by omega)
      have hs : (i + 1) * C = i * C + C := Nat.succ_mul i C
      omega
    · omega
    · omega

/-- C8: For a document of `N ≥ 1` pages and a positive pages-per-chunk
bound `C`, `split_pdf` yields `ceil(N/C)` chunks; chunk `i` covers the
page range `[i*C, min (i*C + C) N)`, so the ranges are contiguous,
disjoint and ascending, starting at page 0 and ending at page `N`; each
chunk has exactly `C` pages except the final one, which has `N mod C`
pages when `C` does not divide `N`. -/
theorem split_pdf_chunk_layout (N C : Nat) (hN : 1 ≤ N) (hC : 1 ≤ C) :
    (split_pdf C N).length = (N + C - 1) / C ∧
    (split_pdf C N).map (fun r => r.2 - r.1)
      = List.replicate ((N + C - 1) / C - 1) C ++ [if N % C = 0 then C else N % C] ∧
    (∀ i, i < (N + C - 1) / C → (split_pdf C N).getD i (0, 0) = (i * C, min (i * C + C) N)) ∧
    (∀ i, i + 1 < (N + C - 1) / C →
      ((split_pdf C N).getD (i + 1) (0, 0)).1 = ((split_pdf C N).getD i (0, 0)).2) ∧
    ((split_pdf C N).getD 0 (0, 0)).1 = 0 ∧
    ((split_pdf C N).getD ((N + C - 1) / C - 1) (0, 0)).2 = N := by
  have hC0 : 0 < C := hC
  obtain ⟨hA, hB, hLast⟩ := split_pdf_bounds N C hN hC0
  have hcnt1 := ceil_div_pos N C hN hC0
  have heq := split_pdf_eq C N hC0
  have hlen : (split_pdf C N).length = (N + C - 1) / C := by
    rw [heq]
    simp
  have hget : ∀ i, i < (N + C - 1) / C →
      (split_pdf C N).getD i (0, 0) = (i * C, min (i * C + C) N) := by
    intro i hi
    rw [heq, List.getD_eq_getElem?_getD, List.getElem?_map, List.getElem?_range hi]
    rfl
  revert hA hB hLast hcnt1 heq hlen hget
  generalize (N + C - 1) / C = cnt
  intro hA hB hLast hcnt1 heq hlen hget
  refine ⟨hlen, ?_, hget, ?_, ?_, ?_⟩
  · rw [heq, List.map_map]
    obtain ⟨m, hm⟩ : ∃ m, cnt = m + 1 := ⟨cnt - 1, by omega⟩
    subst hm
    rw [Nat.add_sub_cancel] at hB hLast
    rw [List.range_succ, List.map_append, Nat.add_sub_cancel]
    congr 1
    · apply List.eq_replicate_iff.2
      refine ⟨by simp, ?_⟩
      intro b hb
      rw [List.mem_map] at hb
      obtain ⟨i, hi, rfl⟩ := hb
      rw [List.mem_range] at hi
      have hle : i * C + C ≤ N := hA i (by omega)
      simp only [Function.comp_apply]
      rw [min_eq_left hle]
      omega
    · simp only [List.map_cons, List.map_nil, Function.comp_apply]
      congr 1
      rw [min_eq_right hB]
      exact hLast
  · intro i hi
    rw [hget (i + 1) hi, hget i (by omega)]
    dsimp only
    have hle : i * C + C ≤ N := hA i hi
    rw [min_eq_left hle]
    exact Nat.succ_mul i C
  · rw [hget 0 (by omega)]
    simp
  · rw [hget (cnt - 1) (by omega)]
    dsimp only
    exact min_eq_right hB

/-! ## Merge lemmas -/

lemma pySliceTo_nonneg (s : List Char) (k : Int) (h : 0 ≤ k) :
    pySliceTo s k = s.take k.toNat := by
  rw [pySliceTo, if_pos h]

lemma mergeAcc2_text (max : Int) (acc : Merged) (r : ChunkResult)
    (h : (acc.text.length : Int) ≤ max) :
    (mergeAcc2 max acc r).text
      = acc.text ++ r.text.take (max - (acc.text.length : Int)).toNat := by
  rw [mergeAcc2, pySliceTo_nonneg _ _ (by omega)]

lemma mergeAcc2_text_length (max : Int) (acc : Merged) (r : ChunkResult)
    (h : (acc.text.length : Int) ≤ max) :
    (mergeAcc2 max acc r).text.length
      = acc.text.length + min (max - (acc.text.length : Int)).toNat r.text.length := by
  rw [mergeAcc2_text max acc r h, List.length_append, List.length_take]

lemma mergeAcc2_pages (max : Int) (acc : Merged) (r : ChunkResult) :
    (mergeAcc2 max acc r).pages = acc.pages ++ r.pages := rfl

lemma mergeLoop_nil (max : Int) (acc : Merged) : mergeLoop max acc [] = acc := rfl

lemma mergeLoop_cons (max : Int) (acc : Merged) (r : ChunkResult) (rs : List ChunkResult) :
    mergeLoop max acc (r :: rs)
      = (if max ≤ ((mergeAcc2 max acc r).text.length : Int) then mergeAcc2 max acc r
         else mergeLoop max (mergeAcc2 max acc r) rs) := rfl

/-- The merged text is the concatenation of the chunk texts truncated
to the remaining budget. -/
lemma mergeLoop_text (max : Int) (rs : List ChunkResult) :
    ∀ acc : Merged, (acc.text.length : Int) ≤ max →
      (mergeLoop max acc rs).text
        = acc.text
          ++ ((rs.map (fun r => r.text)).flatten).take (max - (acc.text.length : Int)).toNat := by
  induction rs with
  | nil =>
    intro acc h
    simp [mergeLoop_nil]
  | cons r rs ih =>
    intro acc h
    rw [mergeLoop_cons]
    simp only [List.map_cons, List.flatten_cons]
    have htext := mergeAcc2_text max acc r h
    by_cases hc : r.text.length ≤ (max - (acc.text.length : Int)).toNat
    · rw [List.take_of_length_le hc] at htext
      have hlen : (mergeAcc2 max acc r).text.length = acc.text.length + r.text.length := by
        rw [htext, List.length_append]
      by_cases hbr : max ≤ ((mergeAcc2 max acc r).text.length : Int)
      · rw [if_pos hbr, htext]
        have hbeq : (max - (acc.text.length : Int)).toNat = r.text.length := by
          rw [hlen] at hbr
          omega
        rw [List.take_append_eq_append_take, hbeq, List.take_length, Nat.sub_self,
          List.take_zero, List.append_nil]
      · rw [if_neg hbr]
        have h2 : ((mergeAcc2 max acc r).text.length : Int) ≤ max := le_of_not_le hbr
        have hidx : (max - ((mergeAcc2 max acc r).text.length : Int)).toNat
            = (max - (acc.text.length : Int)).toNat - r.text.length := by
          rw [hlen]
          omega
        rw [ih _ h2, hidx, htext, List.append_assoc,
          List.take_append_eq_append_take, List.take_of_length_le hc]
    · push_neg at hc
      have hlen : (mergeAcc2 max acc r).text.length
          = acc.text.length + (max - (acc.text.length : Int)).toNat := by
        rw [htext, List.length_append, List.length_take, min_eq_left hc.le]
      have hbr : max ≤ ((mergeAcc2 max acc r).text.length : Int) := by
        rw [hlen]
        omega
      rw [if_pos hbr, htext, List.take_append_eq_append_take,
        Nat.sub_eq_zero_of_le hc.le, List.take_zero, List.append_nil]

/-- The merged pages are the concatenation of the page lists of the
results the loop consumed before stopping. -/
lemma mergeLoop_pages (max : Int) (rs : List ChunkResult) :
    ∀ acc : Merged, (acc.text.length : Int) ≤ max →
      (mergeLoop max acc rs).pages
        = acc.pages
          ++ ((rs.take (mergeKept max (acc.text.length : Int) rs)).map
                (fun r => r.pages)).flatten := by
  induction rs with
  | nil =>
    intro acc h
    simp [mergeLoop_nil, mergeKept]
  | cons r rs ih =>
    intro acc h
    rw [mergeLoop_cons, mergeKept]
    have hslice : pySliceTo r.text (max - (acc.text.length : Int))
        = r.text.take (max - (acc.text.length : Int)).toNat := pySliceTo_nonneg _ _ (by omega)
    have htext := mergeAcc2_text max acc r h
    by_cases hc : r.text.length ≤ (max - (acc.text.length : Int)).toNat
    · rw [List.take_of_length_le hc] at htext
      have hlen : (mergeAcc2 max acc r).text.length = acc.text.length + r.text.length := by
        rw [htext, List.length_append]
      have hslen : (pySliceTo r.text (max - (acc.text.length : Int))).length = r.text.length := by
        rw [hslice, List.take_of_length_le hc]
      by_cases hbr : max ≤ ((mergeAcc2 max acc r).text.length : Int)
      · rw [if_pos hbr]
        rw [if_pos (show max ≤ (acc.text.length : Int)
            + ((pySliceTo r.text (max - (acc.text.length : Int))).length : Int) by
          rw [hslen]
          rw [hlen] at hbr
          omega)]
        simp [mergeAcc2_pages]
      · rw [if_neg hbr]
        rw [if_neg (show ¬ max ≤ (acc.text.length : Int)
            + ((pySliceTo r.text (max - (acc.text.length : Int))).length : Int) by
          rw [hslen]
          rw [hlen] at hbr
          omega)]
        have h2 : ((mergeAcc2 max acc r).text.length : Int) ≤ max := le_of_not_le hbr
        rw [ih _ h2, mergeAcc2_pages, List.append_assoc]
        have hkeq : (acc.text.length : Int)
            + ((pySliceTo r.text (max - (acc.text.length : Int))).length : Int)
            = ((mergeAcc2 max acc r).text.length : Int) := by
          rw [hslen, hlen]
          push_cast
          ring
        rw [hkeq, Nat.add_comm 1 _, List.take_succ_cons, List.map_cons, List.flatten_cons]
    · push_neg at hc
      have hslen : (pySliceTo r.text (max - (acc.text.length : Int))).length
          = (max - (acc.text.length : Int)).toNat := by
        rw [hslice, List.length_take, min_eq_left hc.le]
      have hlen : (mergeAcc2 max acc r).text.length
          = acc.text.length + (max - (acc.text.length : Int)).toNat := by
        rw [htext, List.length_append, List.length_take, min_eq_left hc.le]
      have hbr : max ≤ ((mergeAcc2 max acc r).text.length : Int) := by
        rw [hlen]
        omega
      rw [if_pos hbr]
      rw [if_pos (show max ≤ (acc.text.length : Int)
          + ((pySliceTo r.text (max - (acc.text.length : Int))).length : Int) by
        rw [hslen]
        omega)]
      simp [mergeAcc2_pages]

/-- When the total text fits strictly under the budget, the merge loop
consumes every result. -/
lemma mergeKept_all (max : Int) (rs : List ChunkResult) :
    ∀ lenAcc : Int, 0 ≤ lenAcc →
      lenAcc + (((rs.map (fun r => r.text.length)).sum : Nat) : Int) < max →
      mergeKept max lenAcc rs = rs.length := by
  induction rs with
  | nil =>
    intro lenAcc h0 hsum
    rfl
  | cons r rs ih =>
    intro lenAcc h0 hsum
    rw [List.map_cons, List.sum_cons] at hsum
    rw [mergeKept]
    have hslice : (pySliceTo r.text (max - lenAcc)).length = r.text.length := by
      rw [pySliceTo_nonneg _ _ (by omega), List.length_take,
        min_eq_right (by omega : r.text.length ≤ (max - lenAcc).toNat)]
    rw [hslice]
    rw [if_neg (by omega : ¬ max ≤ lenAcc + ((r.text.length : Nat) : Int))]
    rw [ih (lenAcc + ((r.text.length : Nat) : Int)) (by omega) (by omega)]
    rw [List.length_cons]
    omega

/-! ## Chunk-loop lemmas -/

lemma chunkLoop_nil (env : ProcEnv) (p s : Nat) : chunkLoop env [] p s = ([], p, s) := rfl

lemma chunkLoop_cons (env : ProcEnv) (c : Nat × Nat) (rest : List (Nat × Nat)) (p s : Nat) :
    chunkLoop env (c :: rest) p s
      = (if env.memSafe (s + 1) = false then ([], p, s + 2)
         else
           ((match (process_chunk_with_timeout (env.attempts p)).result with
             | some r => r :: (chunkLoop env rest (p + 1) (s + 3)).1
             | none => (chunkLoop env rest (p + 1) (s + 3)).1),
            (chunkLoop env rest (p + 1) (s + 3)).2.1,
            (chunkLoop env rest (p + 1) (s + 3)).2.2)) := rfl

/-- When every memory sample is admissible, the loop attempts every
chunk in order and collects exactly the successful results. -/
lemma chunkLoop_all_safe (env : ProcEnv) (chunks : List (Nat × Nat))
    (hmem : ∀ n, env.memSafe n = true) :
    ∀ p s,
      (chunkLoop env chunks p s).1
          = (List.range chunks.length).filterMap
              (fun i => (process_chunk_with_timeout (env.attempts (p + i))).result) ∧
        (chunkLoop env chunks p s).2.1 = p + chunks.length := by
  induction chunks with
  | nil =>
    intro p s
    simp [chunkLoop_nil]
  | cons c rest ih =>
    intro p s
    rw [chunkLoop_cons]
    rw [if_neg (by rw [hmem (s + 1)]; simp : ¬ env.memSafe (s + 1) = false)]
    obtain ⟨ih1, ih2⟩ := ih (p + 1) (s + 3)
    have hfun : ((fun i => (process_chunk_with_timeout (env.attempts (p + i))).result) ∘ Nat.succ)
        = fun i => (process_chunk_with_timeout (env.attempts (p + 1 + i))).result := by
      funext i
      simp only [Function.comp_apply]
      have hpi : p + Nat.succ i = p + 1 + i := by omega
      rw [hpi]
    constructor
    · rw [List.length_cons, List.range_succ_eq_map, List.filterMap_cons, List.filterMap_map,
        hfun]
      rcases hres : (process_chunk_with_timeout (env.attempts p)).result with _ | r
      · have hres0 : (process_chunk_with_timeout (env.attempts (p + 0))).result = none := by
          rw [Nat.add_zero]
          exact hres
        simp only [hres, hres0, ih1]
      · have hres0 : (process_chunk_with_timeout (env.attempts (p + 0))).result = some r := by
          rw [Nat.add_zero]
          exact hres
        simp only [hres, hres0, ih1]
    · dsimp only
      rw [ih2, List.length_cons]
      omega

/-- The number of chunks processed equals the number of leading
iterations whose loop-top memory sample is admissible. -/
lemma chunkLoop_count (env : ProcEnv) (chunks : List (Nat × Nat)) :
    ∀ p s,
      (chunkLoop env chunks p s).2.1
        = p + ((List.range chunks.length).takeWhile
                 (fun i => env.memSafe (3 * i + s + 1))).length := by
  induction chunks with
  | nil =>
    intro p s
    simp [chunkLoop_nil]
  | cons c rest ih =>
    intro p s
    rw [chunkLoop_cons, List.length_cons, List.range_succ_eq_map]
    by_cases hm : env.memSafe (s + 1) = false
    · rw [if_pos hm]
      rw [List.takeWhile_cons_of_neg (by simpa using hm)]
      rfl
    · rw [if_neg hm]
      have hmt : env.memSafe (s + 1) = true := by
        cases hx : env.memSafe (s + 1)
        · exact absurd hx hm
        · rfl
      rw [List.takeWhile_cons_of_pos (by simpa using hmt)]
      dsimp only
      rw [ih (p + 1) (s + 3), List.takeWhile_map, List.length_cons, List.length_map]
      have hfun : ((fun i => env.memSafe (3 * i + s + 1)) ∘ Nat.succ)
          = fun i => env.memSafe (3 * i + (s + 3) + 1) := by
        funext i
        simp only [Function.comp_apply]
        congr 1
        omega
      rw [hfun]
      omega

/-! ## Claim theorems -/

/-- C8 witness: a 45-page document with 10 pages per chunk yields
chunks of sizes `[10, 10, 10, 10, 5]`, and `ceil(45/10) = 5` chunks. -/
theorem split_pdf_chunk_layout_witness :
    (split_pdf 10 45).map (fun r => r.2 - r.1) = [10, 10, 10, 10, 5] ∧
    (split_pdf 10 45).length = (45 + 10 - 1) / 10 := by
  constructor
  · decide
  · exact (split_pdf_chunk_layout 45 10 (by decide) (by decide)).1

/-- C9 counterexample: a zero-page document yields zero chunks, not
one — `split_pdf` iterates `range(0, 0, 10)`, which is empty. -/
theorem split_zero_pages_counterexample :
    split_pdf 10 0 = [] ∧ (split_pdf 10 0).length ≠ 1 := by
  constructor
  · rfl
  · decide

/-- C9 amended: for a positive pages-per-chunk bound, a single-page
document yields exactly one chunk, and a zero-page document yields
zero chunks (not one). -/
theorem split_small_documents_amended (C : Nat) (_hC : 1 ≤ C) :
    (split_pdf C 1).length = 1 ∧ (split_pdf C 0).length = 0 :=
  ⟨rfl, rfl⟩

/-- C9 witness: the amended statement at the default chunk size 10. -/
theorem split_small_documents_amended_witness :
    (split_pdf 10 1).length = 1 ∧ (split_pdf 10 0).length = 0 :=
  split_small_documents_amended 10 (by decide)

/-- C4 counterexample: merging an empty list of chunk results (zero
successful chunks) raises nothing — `_safe_merge_results` returns an
empty merged result with `total_chunks = 0`; no `AggregationError`
class exists anywhere in the code. -/
theorem merge_empty_counterexample :
    safe_merge_results 250000 []
      = { text := [], pages := [], total_chunks := 0, processors := ∅ } := rfl

/-- C4 amended: for every configured text budget, zero successful
chunks is not a fatal outcome at the merge step: `_safe_merge_results`
on an empty result list returns normally with empty text, empty pages
and `total_chunks = 0`. -/
theorem merge_empty_returns_normally (maxTextSize : Int) :
    safe_merge_results maxTextSize []
      = { text := [], pages := [], total_chunks := 0, processors := ∅ } := rfl

lemma acc0_text_len (n : Nat) :
    (((⟨[], [], n, ∅⟩ : Merged).text.length : Nat) : Int) = 0 := rfl

/-- C1 counterexample: two successful chunks of one page each, both
carrying the within-chunk page number 1 that Document AI reports for a
standalone single-page chunk.  The merged page count is 2 (the sum),
but the merged page numbers are `[1, 1]`, not the renumbered global
sequence `[1, 2]` — `_safe_merge_results` extends the page list without
renumbering. -/
theorem merge_no_renumbering_counterexample :
    ((safe_merge_results 250000
        [{ text := ['a'],
           pages := [{ page_number := 1, width := 0, height := 0, confidence := 0 }],
           processors := [] },
         { text := ['b'],
           pages := [{ page_number := 1, width := 0, height := 0, confidence := 0 }],
           processors := [] }]).pages.map (fun p => p.page_number) = [1, 1]) ∧
    ¬ ((safe_merge_results 250000
        [{ text := ['a'],
           pages := [{ page_number := 1, width := 0, height := 0, confidence := 0 }],
           processors := [] },
         { text := ['b'],
           pages := [{ page_number := 1, width := 0, height := 0, confidence := 0 }],
           processors := [] }]).pages.map (fun p => p.page_number) = [1, 2]) := by
  constructor
  · rfl
  · decide

/-- C1 amended: when all chunks succeed and the total text is strictly
below the text budget, the merged page count equals the sum of
per-chunk page counts, and the merged pages (and text) are the exact
concatenation of the per-chunk page lists (and texts) in chunk order —
page numbers are carried over unchanged, with no global renumbering. -/
theorem merge_concatenation_amended (maxTextSize : Int) (results : List ChunkResult)
    (h : (((results.map (fun r => r.text.length)).sum : Nat) : Int) < maxTextSize) :
    (safe_merge_results maxTextSize results).pages
        = (results.map (fun r => r.pages)).flatten ∧
    (safe_merge_results maxTextSize results).pages.length
        = (results.map (fun r => r.pages.length)).sum ∧
    (safe_merge_results maxTextSize results).text
        = (results.map (fun r => r.text)).flatten := by
  have hacc : (((⟨[], [], results.length, ∅⟩ : Merged).text.length : Nat) : Int)
      ≤ maxTextSize := by
    rw [acc0_text_len]
    omega
  have hpages := mergeLoop_pages maxTextSize results ⟨[], [], results.length, ∅⟩ hacc
  have htext := mergeLoop_text maxTextSize results ⟨[], [], results.length, ∅⟩ hacc
  rw [acc0_text_len] at htext hpages
  have hkept := mergeKept_all maxTextSize results 0 le_rfl (by omega)
  rw [hkept, List.take_length] at hpages
  have hpnil : (⟨[], [], results.length, ∅⟩ : Merged).pages = [] := rfl
  have htnil : (⟨[], [], results.length, ∅⟩ : Merged).text = [] := rfl
  rw [hpnil, List.nil_append] at hpages
  rw [htnil, List.nil_append] at htext
  have hsub : maxTextSize - 0 = maxTextSize := by omega
  rw [hsub] at htext
  have hflatlen : ((results.map (fun r => r.text)).flatten).length
      = (results.map (fun r => r.text.length)).sum := by
    rw [List.length_flatten, List.map_map]
    rfl
  have htake : ((results.map (fun r => r.text)).flatten).take maxTextSize.toNat
      = (results.map (fun r => r.text)).flatten := by
    apply List.take_of_length_le
    rw [hflatlen]
    omega
  rw [htake] at htext
  rw [safe_merge_results]
  refine ⟨hpages, ?_, htext⟩
  rw [hpages, List.length_flatten, List.map_map]
  rfl

/-- C1 witness: the amended statement at two concrete one-page chunks
and the default budget 250000. -/
theorem merge_concatenation_amended_witness :
    ((([{ text := ['a'],
          pages := [{ page_number := 1, width := 0, height := 0, confidence := 0 }],
          processors := [] },
        { text := ['b'],
          pages := [{ page_number := 1, width := 0, height := 0, confidence := 0 }],
          processors := [] }] : List ChunkResult).map (fun r => r.text.length)).sum : Int)
        < 250000 ∧
    (safe_merge_results 250000
        [{ text := ['a'],
           pages := [{ page_number := 1, width := 0, height := 0, confidence := 0 }],
           processors := [] },
         { text := ['b'],
           pages := [{ page_number := 1, width := 0, height := 0, confidence := 0 }],
           processors := [] }]).pages.length = 2 := by
  constructor
  · decide
  · have h := (merge_concatenation_amended 250000
      [{ text := ['a'],
         pages := [{ page_number := 1, width := 0, height := 0, confidence := 0 }],
         processors := [] },
       { text := ['b'],
         pages := [{ page_number := 1, width := 0, height := 0, confidence := 0 }],
         processors := [] }] (by decide)).2.1
    rw [h]
    decide

/-- C10: for every non-negative text budget, the merged text never
exceeds the budget: it equals the concatenation of the chunk texts
truncated at `max_text_size` characters (each chunk contributing at
most the remaining budget), and the merged pages are exactly the page
lists of the results consumed before the loop stopped — all later
text and pages of all later results are silently dropped. -/
theorem merge_text_budget_invariant (maxTextSize : Int) (results : List ChunkResult)
    (h : 0 ≤ maxTextSize) :
    ((safe_merge_results maxTextSize results).text.length : Int) ≤ maxTextSize ∧
    (safe_merge_results maxTextSize results).text
        = ((results.map (fun r => r.text)).flatten).take maxTextSize.toNat ∧
    (safe_merge_results maxTextSize results).pages
        = ((results.take (mergeKept maxTextSize 0 results)).map (fun r => r.pages)).flatten := by
  have hacc : (((⟨[], [], results.length, ∅⟩ : Merged).text.length : Nat) : Int)
      ≤ maxTextSize := by
    rw [acc0_text_len]
    omega
  have htext := mergeLoop_text maxTextSize results ⟨[], [], results.length, ∅⟩ hacc
  have hpages := mergeLoop_pages maxTextSize results ⟨[], [], results.length, ∅⟩ hacc
  rw [acc0_text_len] at htext hpages
  have hpnil : (⟨[], [], results.length, ∅⟩ : Merged).pages = [] := rfl
  have htnil : (⟨[], [], results.length, ∅⟩ : Merged).text = [] := rfl
  rw [hpnil, List.nil_append] at hpages
  rw [htnil, List.nil_append] at htext
  have hsub : maxTextSize - 0 = maxTextSize := by omega
  rw [hsub] at htext
  rw [safe_merge_results]
  refine ⟨?_, htext, hpages⟩
  rw [htext, List.length_take]
  omega

/-- C10 witness: budget 3 over chunks with texts "ab", "cd", "e": the
merged text stays within the budget and equals the first three
characters of the concatenation. -/
theorem merge_text_budget_invariant_witness :
    ((safe_merge_results 3
        [{ text := ['a', 'b'],
           pages := [{ page_number := 1, width := 0, height := 0, confidence := 0 }],
           processors := [] },
         { text := ['c', 'd'],
           pages := [{ page_number := 2, width := 0, height := 0, confidence := 0 }],
           processors := [] },
         { text := ['e'],
           pages := [{ page_number := 3, width := 0, height := 0, confidence := 0 }],
           processors := [] }]).text.length : Int) ≤ 3 ∧
    (safe_merge_results 3
        [{ text := ['a', 'b'],
           pages := [{ page_number := 1, width := 0, height := 0, confidence := 0 }],
           processors := [] },
         { text := ['c', 'd'],
           pages := [{ page_number := 2, width := 0, height := 0, confidence := 0 }],
           processors := [] },
         { text := ['e'],
           pages := [{ page_number := 3, width := 0, height := 0, confidence := 0 }],
           processors := [] }]).text
      = (([{ text := ['a', 'b'],
             pages := [{ page_number := 1, width := 0, height := 0, confidence := 0 }],
             processors := [] },
           { text := ['c', 'd'],
             pages := [{ page_number := 2, width := 0, height := 0, confidence := 0 }],
             processors := [] },
           { text := ['e'],
             pages := [{ page_number := 3, width := 0, height := 0, confidence := 0 }],
             processors := [] }] : List ChunkResult).map (fun r => r.text)).flatten.take
          (3 : Int).toNat := by
  constructor
  · exact (merge_text_budget_invariant 3
      [{ text := ['a', 'b'],
         pages := [{ page_number := 1, width := 0, height := 0, confidence := 0 }],
         processors := [] },
       { text := ['c', 'd'],
         pages := [{ page_number := 2, width := 0, height := 0, confidence := 0 }],
         processors := [] },
       { text := ['e'],
         pages := [{ page_number := 3, width := 0, height := 0, confidence := 0 }],
         processors := [] }] (by decide)).1
  · exact (merge_text_budget_invariant 3
      [{ text := ['a', 'b'],
         pages := [{ page_number := 1, width := 0, height := 0, confidence := 0 }],
         processors := [] },
       { text := ['c', 'd'],
         pages := [{ page_number := 2, width := 0, height := 0, confidence := 0 }],
         processors := [] },
       { text := ['e'],
         pages := [{ page_number := 3, width := 0, height := 0, confidence := 0 }],
         processors := [] }] (by decide)).2.1

/-- C5: for every key and value, `get` after `set` returns that value
whenever the elapsed time since the set is below the TTL, and returns
absent whenever the elapsed time exceeds the TTL; a read that finds an
expired entry deletes it from the store. -/
theorem cache_ttl_roundtrip {K V : Type} [DecidableEq K] (s : CacheState K V)
    (k : K) (v : V) (ttl tset tget : Nat) (hle : tset ≤ tget) :
    (tget - tset < ttl →
      cache_get ttl (cache_set s tset k v) tget k = (some v, cache_set s tset k v)) ∧
    (ttl < tget - tset →
      (cache_get ttl (cache_set s tset k v) tget k).1 = none ∧
      (cache_get ttl (cache_set s tset k v) tget k).2 k = none) := by
  have hk : (cache_set s tset k v) k = some (tset, v) := if_pos rfl
  constructor
  · intro hfresh
    simp only [cache_get, hk]
    rw [if_neg (by omega : ¬ tset + ttl < tget)]
  · intro hexpired
    simp only [cache_get, hk]
    rw [if_pos (by omega : tset + ttl < tget)]
    exact ⟨rfl, if_pos rfl⟩

/-- C5 witness: an entry set at time 0 with a 24-hour TTL is returned
at time 1 and is absent at time 30. -/
theorem cache_ttl_roundtrip_witness :
    (cache_get 24 (cache_set (fun _ => none : CacheState Nat Nat) 0 1 7) 1 1).1 = some 7 ∧
    (cache_get 24 (cache_set (fun _ => none : CacheState Nat Nat) 0 1 7) 30 1).1 = none := by
  constructor
  · have h := (cache_ttl_roundtrip (fun _ => none : CacheState Nat Nat) 1 7 24 0 1
      (by decide)).1 (by decide)
    exact congrArg Prod.fst h
  · exact ((cache_ttl_roundtrip (fun _ => none : CacheState Nat Nat) 1 7 24 0 30
      (by decide)).2 (by decide)).1

/-- C7 counterexample: a chunk whose Document AI call times out on
every attempt is retried — three attempts are made — but with no delay
at all between the attempts: the `asyncio.sleep(2 ** attempt)` call
sits only in the generic-exception branch, and the `TimeoutError`
branch loops back immediately.  The claimed exponential backoff
between consecutive timed-out attempts does not happen. -/
theorem retry_timeout_no_backoff_counterexample :
    process_chunk_with_timeout (fun _ => AttemptOutcome.timeout)
      = { result := none, attemptsMade := 3, delays := [] } := rfl

/-- C7 amended: on timeout the call is retried immediately (three
attempts, no delays); on a non-timeout transient failure it is retried
with a delay of `2 ** attempt` seconds before each retry (1s, then 2s
— base delay doubling); in both cases after `max_retries = 3` failed
attempts the call returns `None`. -/
theorem retry_backoff_amended (envT envF : Nat → AttemptOutcome)
    (hT : ∀ a, envT a = AttemptOutcome.timeout)
    (hF : ∀ a, envF a = AttemptOutcome.failure) :
    process_chunk_with_timeout envT = { result := none, attemptsMade := 3, delays := [] } ∧
    process_chunk_with_timeout envF
      = { result := none, attemptsMade := 3, delays := [1, 2] } := by
  constructor
  · simp [process_chunk_with_timeout, processChunkGo, hT, max_retries]
  · simp [process_chunk_with_timeout, processChunkGo, hF, max_retries]

/-- C7 witness: the amended statement at the constant-timeout and
constant-failure attempt environments. -/
theorem retry_backoff_amended_witness :
    process_chunk_with_timeout (fun _ => AttemptOutcome.timeout)
        = { result := none, attemptsMade := 3, delays := [] } ∧
    process_chunk_with_timeout (fun _ => AttemptOutcome.failure)
        = { result := none, attemptsMade := 3, delays := [1, 2] } :=
  ⟨(retry_backoff_amended _ _ (fun _ => rfl) (fun _ => rfl)).1,
   (retry_backoff_amended _ _ (fun _ => rfl) (fun _ => rfl)).2⟩

/-- C2 counterexample: a job whose only chunk succeeds but whose
secondary (vision) analysis raises does not complete — `process_document`
propagates the vision exception (there is no handler around the
`analyze_document` call, and `analyze_document` re-raises), so no
result with empty secondary metadata is ever returned. -/
theorem vision_failure_aborts_counterexample :
    process_document
      { memSafe := fun _ => true
        attempts := fun _ _ =>
          AttemptOutcome.success
            { text := ['a'],
              pages := [{ page_number := 1, width := 0, height := 0, confidence := 0 }],
              processors := [] }
        vision := Except.error () } 250000 [(0, 1)]
      = Except.error ProcessAbort.visionAborted := rfl

/-- C2 amended: for every job in which the secondary (vision) analysis
call raises or times out, `process_document` aborts with that
exception: the vision call is made with no surrounding handler after
the chunk loop, so a secondary-analysis failure always aborts the
job instead of degrading metadata. -/
theorem vision_failure_aborts (env : ProcEnv) (maxTextSize : Int)
    (chunks : List (Nat × Nat)) (h : env.vision = Except.error ()) :
    process_document env maxTextSize chunks = Except.error ProcessAbort.visionAborted := by
  rw [process_document, h]

/-- C2 witness: the amended statement at a concrete failing-vision
environment. -/
theorem vision_failure_aborts_witness :
    process_document
      { memSafe := fun _ => true
        attempts := fun _ _ => AttemptOutcome.failure
        vision := Except.error () } 250000 []
      = Except.error ProcessAbort.visionAborted :=
  vision_failure_aborts _ 250000 [] rfl

lemma mergeLoop_total_chunks (max : Int) (rs : List ChunkResult) :
    ∀ acc : Merged, (mergeLoop max acc rs).total_chunks = acc.total_chunks := by
  induction rs with
  | nil =>
    intro acc
    rfl
  | cons r rs ih =>
    intro acc
    rw [mergeLoop_cons]
    by_cases hbr : max ≤ ((mergeAcc2 max acc r).text.length : Int)
    · rw [if_pos hbr]
      rfl
    · rw [if_neg hbr]
      exact ih (mergeAcc2 max acc r)

lemma safe_merge_total_chunks (max : Int) (rs : List ChunkResult) :
    (safe_merge_results max rs).total_chunks = rs.length := by
  rw [safe_merge_results, mergeLoop_total_chunks]

/-- C3 counterexample: a job whose single chunk succeeds on the first
attempt and whose vision call succeeds still does not return a
structured result — `process_document` raises `AttributeError` at the
save step, because `DocumentSaver` defines no `save_results` method
(only `append_result` and `save_final_results`). -/
theorem chunk_success_still_raises_counterexample :
    process_document
      { memSafe := fun _ => true
        attempts := fun _ _ =>
          AttemptOutcome.success
            { text := ['a'],
              pages := [{ page_number := 1, width := 0, height := 0, confidence := 0 }],
              processors := [] }
        vision := Except.ok () } 250000 [(0, 1)]
      = Except.error ProcessAbort.saveAttributeAborted := rfl

/-- C3 amended: the chunk loop itself absorbs chunk failures — when
every memory sample is admissible it attempts every chunk in order and
collects exactly the successful results; a chunk that fails its first
`max_retries - 1 = 2` attempts and succeeds on the third is recorded
as succeeded, and a chunk whose every attempt fails yields `None` and
is dropped without aborting the loop.  The merged metadata records
only `total_chunks` (the number of successful chunk results) — there
is no `chunks_failed` field — and `process_document` never returns a
structured result at all: it raises either the vision error or the
`AttributeError` from the missing `DocumentSaver.save_results`. -/
theorem chunk_failures_absorbed_amended (env : ProcEnv) (chunks : List (Nat × Nat))
    (hmem : ∀ n, env.memSafe n = true) :
    (chunkLoop env chunks 0 0).1
        = (List.range chunks.length).filterMap
            (fun i => (process_chunk_with_timeout (env.attempts i)).result) ∧
    (chunkLoop env chunks 0 0).2.1 = chunks.length ∧
    (∀ i r, env.attempts i 0 = AttemptOutcome.failure →
      env.attempts i 1 = AttemptOutcome.failure →
      env.attempts i 2 = AttemptOutcome.success r →
      (process_chunk_with_timeout (env.attempts i)).result = some r) ∧
    (∀ i, (∀ a, a < max_retries →
        env.attempts i a = AttemptOutcome.timeout ∨
        env.attempts i a = AttemptOutcome.failure) →
      (process_chunk_with_timeout (env.attempts i)).result = none) ∧
    (∀ maxTextSize : Int,
      (safe_merge_results maxTextSize (chunkLoop env chunks 0 0).1).total_chunks
        = (chunkLoop env chunks 0 0).1.length) ∧
    (∀ (maxTextSize : Int) (m : Merged),
      process_document env maxTextSize chunks ≠ Except.ok m) := by
  obtain ⟨h1, h2⟩ := chunkLoop_all_safe env chunks hmem 0 0
  have hfun : (fun i => (process_chunk_with_timeout (env.attempts (0 + i))).result)
      = fun i => (process_chunk_with_timeout (env.attempts i)).result := by
    funext i
    rw [Nat.zero_add]
  rw [hfun] at h1
  rw [Nat.zero_add] at h2
  refine ⟨h1, h2, ?_, ?_, ?_, ?_⟩
  · intro i r h0 ha1 ha2
    simp [process_chunk_with_timeout, processChunkGo, max_retries, h0, ha1, ha2]
  · intro i h
    rcases h 0 (by decide) with h0 | h0 <;>
      rcases h 1 (by decide) with ha1 | ha1 <;>
        rcases h 2 (by decide) with ha2 | ha2 <;>
          simp [process_chunk_with_timeout, processChunkGo, max_retries, h0, ha1, ha2]
  · intro maxTextSize
    exact safe_merge_total_chunks maxTextSize (chunkLoop env chunks 0 0).1
  · intro maxTextSize m
    cases hv : env.vision with
    | error e =>
      simp [process_document, hv]
    | ok u =>
      simp [process_document, hv]

/-- C3 witness: two chunks with admissible memory throughout; the first
chunk fails twice then succeeds, the second fails every attempt; both
chunks are attempted. -/
theorem chunk_failures_absorbed_amended_witness :
    (chunkLoop
      { memSafe := fun _ => true
        attempts := fun i a =>
          if i = 0 then
            (if a ≤ 1 then AttemptOutcome.failure
             else AttemptOutcome.success
               { text := ['a'],
                 pages := [{ page_number := 1, width := 0, height := 0, confidence := 0 }],
                 processors := [] })
          else AttemptOutcome.failure
        vision := Except.ok () } [(0, 10), (10, 15)] 0 0).2.1 = 2 :=
  (chunk_failures_absorbed_amended
    { memSafe := fun _ => true
      attempts := fun i a =>
        if i = 0 then
          (if a ≤ 1 then AttemptOutcome.failure
           else AttemptOutcome.success
             { text := ['a'],
               pages := [{ page_number := 1, width := 0, height := 0, confidence := 0 }],
               processors := [] })
        else AttemptOutcome.failure
      vision := Except.ok () } [(0, 10), (10, 15)] (fun _ => rfl)).2.1

/-- C6 counterexample: a 20-page document splits into two chunks, but
with a memory-sample sequence that is unsafe from the second sample on
(the first loop-top check), the dispatch loop breaks immediately:
zero chunks are processed — memory pressure skips chunks rather than
merely delaying them. -/
theorem memory_pressure_skips_chunks_counterexample :
    (split_pdf 10 20).length = 2 ∧
    (chunkLoop
      { memSafe := fun n => n == 0
        attempts := fun _ _ => AttemptOutcome.failure
        vision := Except.ok () } (split_pdf 10 20) 0 0).2.1 = 0 := by
  constructor
  · rfl
  · rfl

/-- C6 amended: the generator-side memory check only delays (it sleeps
and then builds the chunk anyway), but the loop-top check is a hard
stop: the number of chunks processed equals the number of leading
iterations whose loop-top memory sample (sample `3*i + 1` of iteration
`i`) is admissible; the first inadmissible loop-top sample stops the
loop, skipping that chunk and all remaining chunks — there is no
bounded-retry admission loop that eventually processes the chunk
anyway. -/
theorem memory_admission_amended (env : ProcEnv) (chunks : List (Nat × Nat)) :
    (chunkLoop env chunks 0 0).2.1
      = ((List.range chunks.length).takeWhile (fun i => env.memSafe (3 * i + 1))).length := by
  rw [chunkLoop_count env chunks 0 0, Nat.zero_add]

end OCRApp
